import Mathlib

/-!
# Verification of `tasks.py` (streaming CSV lookup and weighted-average aggregation)

Shallow embedding of `src/tasks.py`.  A CSV source that has already been
tokenised by the standard CSV reader is modelled as a `List (List String)`:
one record per line, each record a list of fields (the `csv` module's
splitting/quoting is standard-library behaviour, outside the repository).
`csv.DictReader` row dictionaries become association lists built by zipping
the header with a record's fields.  Python exceptions are modelled by
`Except CsvError`.

Python `str` comparison is lexicographic on code points; it is embedded as a
structural lexicographic order on `List Char` (`charListLt`), because the
core `String` order does not reduce in the kernel.
-/

/-- A `csv.DictReader` row dictionary: an association list from column name
to field text.  Search dictionaries (`Dict[str, str]`) use the same model. -/
abbrev Row := List (String × String)

/-- The exceptions the module can raise: `ValueError("CSV data must have
headers.")`, `Exception("Key mismatch")`, and the `ValueError` from `int()`
on a malformed value field. -/
inductive CsvError
  | missingHeader
  | keyMismatch
  | valueFormat
deriving DecidableEq, Repr

deriving instance DecidableEq for Except

/-- Lexicographic strict order on char lists: the order Python uses to
compare strings (code-point lexicographic). -/
def charListLt : List Char → List Char → Bool
  | [], [] => false
  | [], _ :: _ => true
  | _ :: _, [] => false
  | a :: as, b :: bs => decide (a < b) || (a == b && charListLt as bs)

/-- Non-strict lexicographic order on `(column, value)` pairs: Python's
tuple comparison `(k1, v1) <= (k2, v2)`, as used by `sorted`. -/
def pairLE (a b : String × String) : Prop :=
  charListLt a.1.data b.1.data = true ∨
    (a.1 = b.1 ∧ (charListLt a.2.data b.2.data = true ∨ a.2 = b.2))

instance : DecidableRel pairLE := fun _ _ => inferInstanceAs (Decidable (_ ∨ _))

/-- `tuple(sorted(pairs))`: sort a list of `(column, value)` pairs
lexicographically. -/
def sortPairs (l : Row) : Row :=
  List.insertionSort pairLE l

/-- `search_key = tuple(sorted((k, str(v)) for k, v in search.items()))`.
Values are already strings, so `str(v)` is the identity. -/
def normKey (search : Row) : Row :=
  sortPairs search

/-- `row[k]` on a `DictReader` row.  Rows produced by `parse_data_iter` on a
well-formed source bind every header column, so the `""` default of the
total lookup is never reached there. -/
def rowGet (row : Row) (k : String) : String :=
  (List.lookup k row).getD ""

/-- `expected_keys = set(headers) - {'value'}`, kept as a duplicate-free
list.  Only its membership is ever used (set equality tests and, after
sorting, iteration). -/
def expectedKeysOf (headers : List String) : List String :=
  (headers.filter (fun h => !(h == "value"))).dedup

/-- `set(search.keys()) == expected_keys`: equality of the two column sets,
as mutual containment. -/
def keySetEq (ks expected : List String) : Bool :=
  ks.all (fun k => expected.contains k) && expected.all (fun k => ks.contains k)

/-- `row_key = tuple(sorted((k, row[k]) for k in expected_keys))`. -/
def rowKey (ek : List String) (row : Row) : Row :=
  sortPairs (ek.map (fun k => (k, rowGet row k)))

/-- The dictionary `csv.DictReader` builds for one record: header columns
zipped with the record's fields. -/
def makeRow (headers fields : List String) : Row :=
  headers.zip fields

/-- `parse_data_iter`: the first record is the header (`reader.fieldnames`);
an empty source has `fieldnames is None` and raises.  The remaining records
become the row sequence. -/
def parse_data_iter (src : List (List String)) :
    Except CsvError (List String × List Row) :=
  match src with
  | [] => .error .missingHeader
  | headers :: records => .ok (headers, records.map (fun r => makeRow headers r))

/-- The whitespace characters `int()` strips from its argument (the ASCII
ones; exotic Unicode spaces and digits accepted by CPython are out of
scope of the data handled here). -/
def isPySpace (c : Char) : Bool :=
  c == ' ' || c == '\t' || c == '\n' || c == '\r' || c == '\x0b' || c == '\x0c'

/-- Decimal digit string to number; `none` on a non-digit. -/
def decDigitsAux : List Char → Nat → Option Nat
  | [], acc => some acc
  | c :: cs, acc =>
    if c.isDigit then decDigitsAux cs (acc * 10 + (c.toNat - 48)) else none

/-- A non-empty all-digit string parsed as a natural number. -/
def decDigits : List Char → Option Nat
  | [] => none
  | c :: cs => decDigitsAux (c :: cs) 0

/-- Python `int(s)` on a string: strip whitespace, optional sign, decimal
digits; `none` models the `ValueError` it raises otherwise. -/
def pyInt (s : String) : Option Int :=
  let cs := ((s.data.dropWhile isPySpace).reverse.dropWhile isPySpace).reverse
  match cs with
  | '-' :: rest => (decDigits rest).map (fun n => -(n : Int))
  | '+' :: rest => (decDigits rest).map (fun n => (n : Int))
  | rest => (decDigits rest).map (fun n => (n : Int))

/-- `weight = 10 if val % 2 else 20`.  Lean's `Int` `%` agrees with
Python's on parity (both give a nonzero remainder exactly on odd values). -/
def weight (v : Int) : Int :=
  if v % 2 ≠ 0 then 10 else 20

/-- Round the rational `p / q` (for `q > 0`) to the nearest integer, ties
to even: the rounding of Python's `round` applied to the exact value of
the quotient.  `n` is the floor of the quotient and `r` the remainder,
`0 ≤ r < q`; the fraction `r / q` is compared with `1 / 2`. -/
def roundHalfEvenDiv (p q : Int) : Int :=
  let n := Int.fdiv p q
  let r := p - q * n
  if 2 * r < q then n
  else if q < 2 * r then n + 1
  else if n % 2 = 0 then n else n + 1

/-- The character of a decimal digit. -/
def natDigitChar : Nat → Char
  | 0 => '0' | 1 => '1' | 2 => '2' | 3 => '3' | 4 => '4'
  | 5 => '5' | 6 => '6' | 7 => '7' | 8 => '8' | _ => '9'

/-- Little-endian decimal digits of `n`, with explicit fuel (any fuel
`> n` is enough). -/
def natToRevDigits : Nat → Nat → List Char
  | 0, _ => []
  | fuel + 1, n =>
    if n < 10 then [natDigitChar n]
    else natDigitChar (n % 10) :: natToRevDigits fuel (n / 10)

/-- Decimal rendering of a natural number. -/
def natToStr (n : Nat) : String :=
  ⟨(natToRevDigits (n + 1) n).reverse⟩

/-- Render an integer number of tenths with one digit after the decimal
point, as `f"{..:.1f}"` does for a multiple of one tenth: `23 ↦ "2.3"`,
`50 ↦ "5.0"`, `-3 ↦ "-0.3"`. -/
def formatTenths (t : Int) : String :=
  (if t < 0 then "-" else "") ++ natToStr (t.natAbs / 10) ++ "." ++
    natToStr (t.natAbs % 10)

/-- `f"{round(total_weighted_sum / total_weight, 1):.1f}"`, modelled over
the exact rational quotient: rounding `tws / tw` to the nearest tenth
(ties to even) is rounding `10 * tws / tw` to the nearest integer, which
is then printed with one decimal digit.  The Python code takes the
quotient in floating point, which agrees with the exact computation except
when the binary approximation falls on the other side of a `.x5` tie. -/
def formatAvg (tws tw : Int) : String :=
  formatTenths (roundHalfEvenDiv (tws * 10) tw)

/-- The `for row in row_iter` scan of `task1`: first row whose normalized
key equals the search key wins; `'-1'` if the rows run out. -/
def task1Loop (ek : List String) (sk : Row) : List Row → String
  | [] => "-1"
  | row :: rest =>
    if rowKey ek row == sk then rowGet row "value" else task1Loop ek sk rest

/-- `task1(search, data)`. -/
def task1 (search : Row) (src : List (List String)) : Except CsvError String :=
  match parse_data_iter src with
  | .error e => .error e
  | .ok (headers, row_iter) =>
    let ek := expectedKeysOf headers
    if !(keySetEq (search.map Prod.fst) ek) then .error .keyMismatch
    else .ok (task1Loop ek (normKey search) row_iter)

/-- The `for row in row_iter` scan of `task2`, carrying
`total_weighted_sum` and `total_weight`; `int(row['value'])` failing on a
matched row raises. -/
def task2Loop (ek : List String) (ss : List Row) :
    List Row → Int → Int → Except CsvError (Int × Int)
  | [], tws, tw => .ok (tws, tw)
  | row :: rest, tws, tw =>
    if ss.contains (rowKey ek row) then
      match pyInt (rowGet row "value") with
      | none => .error .valueFormat
      | some v => task2Loop ek ss rest (tws + v * weight v) (tw + weight v)
    else task2Loop ek ss rest tws tw

/-- `task2(search_list, data)`.  The Python `search_set` is a set of
normalized tuples; only membership in it is used, so it is kept as the
list of normalized keys. -/
def task2 (search_list : List Row) (src : List (List String)) :
    Except CsvError String :=
  match parse_data_iter src with
  | .error e => .error e
  | .ok (headers, row_iter) =>
    let ek := expectedKeysOf headers
    if !(search_list.all (fun s => keySetEq (s.map Prod.fst) ek)) then
      .error .keyMismatch
    else
      match task2Loop ek (search_list.map normKey) row_iter 0 0 with
      | .error e => .error e
      | .ok (tws, tw) =>
        if tw = 0 then .ok "-1" else .ok (formatAvg tws tw)

/-! ## Spec-side definitions

Written from the specification's wording, to be compared with the embedded
code. -/

/-- Spec: "weight = 20 if the integer value is even, 10 if odd". -/
def specWeight (v : Int) : Int :=
  if v % 2 = 0 then 20 else 10

/-- Spec: a row is aggregated when "the normalized row key is a member of
the search set" (the set of normalized search keys). -/
def rowMatched (ek : List String) (ss : List Row) (row : Row) : Bool :=
  ss.contains (rowKey ek row)

/-- The integer value of a row's `"value"` field (rows whose field does
not parse are only ever used under a hypothesis ruling the default out). -/
def specValue (row : Row) : Int :=
  (pyInt (rowGet row "value")).getD 0

/-- Spec: `total_weighted_sum` accumulated over exactly the matching rows:
the sum of `value * weight` over them. -/
def specTWS (ek : List String) (ss : List Row) (rows : List Row) : Int :=
  ((rows.filter (fun r => rowMatched ek ss r)).map
    (fun r => specValue r * specWeight (specValue r))).sum

/-- Spec: `total_weight` accumulated over exactly the matching rows: the
sum of `weight` over them. -/
def specTW (ek : List String) (ss : List Row) (rows : List Row) : Int :=
  ((rows.filter (fun r => rowMatched ek ss r)).map
    (fun r => specWeight (specValue r))).sum

/-- The spec's "a Key whose column set ≠ H \ {V}", phrased by bounded
quantification over the key's columns and the header: the key's column set
differs from the header's columns minus `"value"`. -/
def KeyColsMismatch (hdrs : List String) (s : Row) : Prop :=
  ¬ ((∀ k ∈ s.map Prod.fst, k ∈ hdrs ∧ k ≠ "value") ∧
     (∀ k ∈ hdrs, k ≠ "value" → k ∈ s.map Prod.fst))

instance (hdrs : List String) (s : Row) : Decidable (KeyColsMismatch hdrs s) :=
  inferInstanceAs (Decidable (¬ _))

/-- A well-formed header: no duplicate column names, and a `value` column
present. -/
def ValidHeader (hdrs : List String) : Prop :=
  hdrs.Nodup ∧ "value" ∈ hdrs

instance (hdrs : List String) : Decidable (ValidHeader hdrs) :=
  inferInstanceAs (Decidable (_ ∧ _))

/-- A well-formed source: valid header and every record with exactly one
field per header column. -/
def ValidSource (hdrs : List String) (records : List (List String)) : Prop :=
  ValidHeader hdrs ∧ ∀ r ∈ records, r.length = hdrs.length

instance (hdrs : List String) (records : List (List String)) :
    Decidable (ValidSource hdrs records) :=
  inferInstanceAs (Decidable (_ ∧ _))

/-! ## Basic lemmas -/

theorem contains_true_iff {α} [BEq α] [LawfulBEq α] (l : List α) (a : α) :
    l.contains a = true ↔ a ∈ l :=
  List.elem_iff

theorem contains_congr {α} [BEq α] [LawfulBEq α] {l l' : List α}
    (h : ∀ x, x ∈ l ↔ x ∈ l') (x : α) : l.contains x = l'.contains x := by
  by_cases hx : x ∈ l'
  · rw [(contains_true_iff l x).mpr ((h x).mpr hx), (contains_true_iff l' x).mpr hx]
  · have h1 : l.contains x = false :=
      Bool.not_eq_true _ |>.mp fun hc => hx ((h x).mp ((contains_true_iff l x).mp hc))
    have h2 : l'.contains x = false :=
      Bool.not_eq_true _ |>.mp fun hc => hx ((contains_true_iff l' x).mp hc)
    rw [h1, h2]

theorem mem_expectedKeysOf (hdrs : List String) (k : String) :
    k ∈ expectedKeysOf hdrs ↔ k ∈ hdrs ∧ k ≠ "value" := by
  simp [expectedKeysOf, List.mem_dedup, List.mem_filter]

theorem keySetEq_true_iff (ks e : List String) :
    keySetEq ks e = true ↔ (∀ k ∈ ks, k ∈ e) ∧ (∀ k ∈ e, k ∈ ks) := by
  simp [keySetEq, List.all_eq_true, contains_true_iff]

theorem keySetEq_expected_iff (ks : List String) (hdrs : List String) :
    keySetEq ks (expectedKeysOf hdrs) = true ↔
      ((∀ k ∈ ks, k ∈ hdrs ∧ k ≠ "value") ∧
       (∀ k ∈ hdrs, k ≠ "value" → k ∈ ks)) := by
  rw [keySetEq_true_iff]
  constructor
  · rintro ⟨h1, h2⟩
    exact ⟨fun k hk => (mem_expectedKeysOf hdrs k).mp (h1 k hk),
           fun k hk hne => h2 k ((mem_expectedKeysOf hdrs k).mpr ⟨hk, hne⟩)⟩
  · rintro ⟨h1, h2⟩
    exact ⟨fun k hk => (mem_expectedKeysOf hdrs k).mpr (h1 k hk),
           fun k hk => by
             obtain ⟨hk1, hk2⟩ := (mem_expectedKeysOf hdrs k).mp hk
             exact h2 k hk1 hk2⟩

theorem keySetEq_congr_left {ks ks' e : List String}
    (h : ∀ k, k ∈ ks ↔ k ∈ ks') : keySetEq ks e = keySetEq ks' e := by
  by_cases hk : keySetEq ks' e = true
  · rw [hk, keySetEq_true_iff]
    rw [keySetEq_true_iff] at hk
    exact ⟨fun k hkk => hk.1 k ((h k).mp hkk), fun k hke => (h k).mpr (hk.2 k hke)⟩
  · have hks : keySetEq ks e ≠ true := by
      intro hc
      apply hk
      rw [keySetEq_true_iff] at hc ⊢
      exact ⟨fun k hkk => hc.1 k ((h k).mpr hkk), fun k hke => (h k).mp (hc.2 k hke)⟩
    rw [Bool.not_eq_true _ |>.mp hks, Bool.not_eq_true _ |>.mp hk]

/-! ## Unfolding lemmas for the two queries -/

theorem task1_ok_of (hdrs : List String) (lines : List (List String)) (search : Row)
    (hk : keySetEq (search.map Prod.fst) (expectedKeysOf hdrs) = true) :
    task1 search (hdrs :: lines) =
      .ok (task1Loop (expectedKeysOf hdrs) (normKey search) (lines.map (makeRow hdrs))) := by
  simp [task1, parse_data_iter, hk]

theorem task2_unfold (hdrs : List String) (lines : List (List String)) (sl : List Row)
    (hall : sl.all (fun s => keySetEq (s.map Prod.fst) (expectedKeysOf hdrs)) = true) :
    task2 sl (hdrs :: lines) =
      (match task2Loop (expectedKeysOf hdrs) (sl.map normKey)
          (lines.map (makeRow hdrs)) 0 0 with
       | .error e => .error e
       | .ok (tws, tw) => if tw = 0 then .ok "-1" else .ok (formatAvg tws tw)) := by
  simp [task2, parse_data_iter, hall]

theorem task1Loop_first (ek : List String) (sk : Row) (pre : List Row) :
    ∀ (row : Row) (post : List Row),
    (∀ r ∈ pre, rowKey ek r ≠ sk) → rowKey ek row = sk →
    task1Loop ek sk (pre ++ row :: post) = rowGet row "value" := by
  induction pre with
  | nil =>
    intro row post _ hm
    simp [task1Loop, hm]
  | cons a as ih =>
    intro row post hpre hm
    have ha : rowKey ek a ≠ sk := hpre a (by simp)
    simp only [List.cons_append, task1Loop, beq_iff_eq, if_neg ha]
    exact ih row post (fun r hr => hpre r (List.mem_cons_of_mem a hr)) hm

theorem task1Loop_none (ek : List String) (sk : Row) :
    ∀ rows : List Row, (∀ r ∈ rows, rowKey ek r ≠ sk) →
    task1Loop ek sk rows = "-1" := by
  intro rows
  induction rows with
  | nil => intro _; rfl
  | cons a as ih =>
    intro h
    have ha : rowKey ek a ≠ sk := h a (by simp)
    simp only [task1Loop, beq_iff_eq, if_neg ha]
    exact ih (fun r hr => h r (List.mem_cons_of_mem a hr))

/-! ## Claim theorems: parsing and exact match -/

/-- C9: `parse_data_iter` raises `MissingHeaderError` exactly on empty
input; on non-empty input it returns the header parsed from the first
record together with the row sequence built from the remaining records. -/
theorem parse_data_iter_spec :
    parse_data_iter [] = .error .missingHeader ∧
    ∀ (hdr : List String) (lines : List (List String)),
      parse_data_iter (hdr :: lines) = .ok (hdr, lines.map (makeRow hdr)) :=
  ⟨rfl, fun _ _ => rfl⟩

/-- C3: on a source with a valid header, a search key (for `task1`), or any
key in the search list (for `task2`), whose column set is not exactly the
header columns minus `"value"` makes the query fail with the key-mismatch
error, whatever the data rows contain. -/
theorem task_keyMismatch (hdrs : List String) (lines : List (List String))
    (search : Row) (sl : List Row)
    (hv : ValidHeader hdrs)
    (h1 : KeyColsMismatch hdrs search)
    (h2 : ∃ s ∈ sl, KeyColsMismatch hdrs s) :
    task1 search (hdrs :: lines) = .error .keyMismatch ∧
    task2 sl (hdrs :: lines) = .error .keyMismatch := by
  constructor
  · have hk : keySetEq (search.map Prod.fst) (expectedKeysOf hdrs) = false := by
      rw [← Bool.not_eq_true, keySetEq_expected_iff]
      exact h1
    simp [task1, parse_data_iter, hk]
  · have hall : sl.all (fun s => keySetEq (s.map Prod.fst) (expectedKeysOf hdrs)) = false := by
      rw [← Bool.not_eq_true, List.all_eq_true]
      intro hc
      obtain ⟨s, hs, hmis⟩ := h2
      exact hmis ((keySetEq_expected_iff (s.map Prod.fst) hdrs).mp (hc s hs))
    simp [task2, parse_data_iter, hall]

/-- C3 witness: scenario D, a key with an extra unexpected column. -/
theorem task_keyMismatch_witness :
    ValidHeader ["id", "value"] ∧
    KeyColsMismatch ["id", "value"] [("id", "1"), ("extra", "2")] ∧
    (∃ s ∈ [[("extra", "2")]], KeyColsMismatch ["id", "value"] s) ∧
    task1 [("id", "1"), ("extra", "2")] [["id", "value"], ["1", "10"]] =
      .error .keyMismatch ∧
    task2 [[("extra", "2")]] [["id", "value"], ["1", "10"]] =
      .error .keyMismatch := by
  refine ⟨by decide, by decide, by decide, ?_⟩
  exact task_keyMismatch ["id", "value"] [["1", "10"]]
    [("id", "1"), ("extra", "2")] [[("extra", "2")]]
    (by decide) (by decide) (by decide)

/-- C2: under a validated search key, `task1` returns the `"value"` field
of the first data row (in source order) whose non-value columns, after
normalization, equal the normalized search key, and returns `"-1"` when no
row matches. -/
theorem task1_firstMatch (hdrs : List String) (lines : List (List String)) (search : Row)
    (hv : ValidSource hdrs lines)
    (hk : keySetEq (search.map Prod.fst) (expectedKeysOf hdrs) = true) :
    (∀ (pre : List Row) (row : Row) (post : List Row),
       lines.map (makeRow hdrs) = pre ++ row :: post →
       (∀ r ∈ pre, rowKey (expectedKeysOf hdrs) r ≠ normKey search) →
       rowKey (expectedKeysOf hdrs) row = normKey search →
       task1 search (hdrs :: lines) = .ok (rowGet row "value")) ∧
    ((∀ r ∈ lines.map (makeRow hdrs),
        rowKey (expectedKeysOf hdrs) r ≠ normKey search) →
       task1 search (hdrs :: lines) = .ok "-1") := by
  constructor
  · intro pre row post hsplit hpre hm
    rw [task1_ok_of hdrs lines search hk, hsplit,
      task1Loop_first (expectedKeysOf hdrs) (normKey search) pre row post hpre hm]
  · intro hnone
    rw [task1_ok_of hdrs lines search hk,
      task1Loop_none (expectedKeysOf hdrs) (normKey search) _ hnone]

/-- C2 witness: duplicate matching rows — the first one wins — and a
no-match query returning the sentinel. -/
theorem task1_firstMatch_witness :
    task1 [("id", "1")] [["id", "value"], ["1", "10"], ["1", "20"]] = .ok "10" ∧
    task1 [("id", "2")] [["id", "value"], ["1", "10"]] = .ok "-1" := by
  constructor
  · have h := (task1_firstMatch ["id", "value"] [["1", "10"], ["1", "20"]]
      [("id", "1")] (by decide) (by decide)).1
      [] [("id", "1"), ("value", "10")] [[("id", "1"), ("value", "20")]]
      (by decide) (by decide) (by decide)
    exact h.trans (by decide)
  · exact (task1_firstMatch ["id", "value"] [["1", "10"]]
      [("id", "2")] (by decide) (by decide)).2 (by decide)

/-! ## The aggregation loop -/

theorem weight_eq_specWeight (v : Int) : weight v = specWeight v := by
  unfold weight specWeight
  by_cases h : v % 2 = 0 <;> simp [h]

theorem task2Loop_ok (ek : List String) (ss : List Row) :
    ∀ rows : List Row,
    (∀ r ∈ rows, rowMatched ek ss r = true → (pyInt (rowGet r "value")).isSome) →
    ∀ tws tw : Int,
    task2Loop ek ss rows tws tw =
      .ok (tws + specTWS ek ss rows, tw + specTW ek ss rows) := by
  intro rows
  induction rows with
  | nil =>
    intro _ tws tw
    simp [task2Loop, specTWS, specTW]
  | cons r rest ih =>
    intro h tws tw
    by_cases hm : rowMatched ek ss r = true
    · have hs : (pyInt (rowGet r "value")).isSome := h r (by simp) hm
      obtain ⟨v, hv⟩ := Option.isSome_iff_exists.mp hs
      have hval : specValue r = v := by simp [specValue, hv]
      rw [show task2Loop ek ss (r :: rest) tws tw =
            task2Loop ek ss rest (tws + v * weight v) (tw + weight v) by
          simp [task2Loop, rowMatched] at hm ⊢
          simp [hm, hv]]
      rw [ih (fun x hx => h x (List.mem_cons_of_mem r hx)) _ _]
      have hfil : (r :: rest).filter (fun x => rowMatched ek ss x) =
          r :: rest.filter (fun x => rowMatched ek ss x) := by
        simp [List.filter_cons, hm]
      simp only [specTWS, specTW, hfil, List.map_cons, List.sum_cons, hval,
        weight_eq_specWeight]
      rw [add_assoc, add_assoc]
    · have hm' : rowMatched ek ss r = false := Bool.not_eq_true _ |>.mp hm
      rw [show task2Loop ek ss (r :: rest) tws tw = task2Loop ek ss rest tws tw by
          simp [task2Loop, rowMatched] at hm' ⊢
          simp [hm']]
      rw [ih (fun x hx => h x (List.mem_cons_of_mem r hx)) _ _]
      have hfil : (r :: rest).filter (fun x => rowMatched ek ss x) =
          rest.filter (fun x => rowMatched ek ss x) := by
        simp [List.filter_cons, hm']
      simp only [specTWS, specTW, hfil]

theorem task2Loop_skip (ek : List String) (ss : List Row) :
    ∀ rows : List Row, (∀ r ∈ rows, rowMatched ek ss r = false) →
    ∀ tws tw : Int, task2Loop ek ss rows tws tw = .ok (tws, tw) := by
  intro rows
  induction rows with
  | nil => intro _ tws tw; rfl
  | cons r rest ih =>
    intro h tws tw
    have hm : rowMatched ek ss r = false := h r (by simp)
    rw [show task2Loop ek ss (r :: rest) tws tw = task2Loop ek ss rest tws tw by
        simp [task2Loop, rowMatched] at hm ⊢
        simp [hm]]
    exact ih (fun x hx => h x (List.mem_cons_of_mem r hx)) tws tw

theorem task2Loop_valueError (ek : List String) (ss : List Row) :
    ∀ rows : List Row,
    (∃ r ∈ rows, rowMatched ek ss r = true ∧ pyInt (rowGet r "value") = none) →
    ∀ tws tw : Int, task2Loop ek ss rows tws tw = .error .valueFormat := by
  intro rows
  induction rows with
  | nil => rintro ⟨r, hr, _⟩; exact absurd hr (List.not_mem_nil r)
  | cons r rest ih =>
    rintro ⟨x, hx, hxm, hxv⟩ tws tw
    rcases List.mem_cons.mp hx with rfl | hx'
    · simp [task2Loop, rowMatched] at hxm
      simp [task2Loop, hxm, hxv]
    · by_cases hm : rowMatched ek ss r = true
      · cases hv : pyInt (rowGet r "value") with
        | none =>
          simp [task2Loop, rowMatched] at hm
          simp [task2Loop, hm, hv]
        | some v =>
          rw [show task2Loop ek ss (r :: rest) tws tw =
                task2Loop ek ss rest (tws + v * weight v) (tw + weight v) by
              simp [task2Loop, rowMatched] at hm ⊢
              simp [hm, hv]]
          exact ih ⟨x, hx', hxm, hxv⟩ _ _
      · have hm' : rowMatched ek ss r = false := Bool.not_eq_true _ |>.mp hm
        rw [show task2Loop ek ss (r :: rest) tws tw = task2Loop ek ss rest tws tw by
            simp [task2Loop, rowMatched] at hm' ⊢
            simp [hm']]
        exact ih ⟨x, hx', hxm, hxv⟩ _ _

/-! ## Claim theorems: weighted aggregation -/

/-- C1: under a validated search list whose matched rows all carry integer
values, `task2` accumulates, over exactly the rows whose normalized key is
in the normalized search set, `total_weighted_sum += value * weight` and
`total_weight += weight` with weight `20` for even and `10` for odd
values, and reports the resulting weighted average. -/
theorem task2_weightedAccumulation (hdrs : List String) (lines : List (List String))
    (sl : List Row)
    (hv : ValidSource hdrs lines)
    (hk : ∀ s ∈ sl, keySetEq (s.map Prod.fst) (expectedKeysOf hdrs) = true)
    (hp : ∀ r ∈ lines.map (makeRow hdrs),
      rowMatched (expectedKeysOf hdrs) (sl.map normKey) r = true →
      (pyInt (rowGet r "value")).isSome) :
    task2 sl (hdrs :: lines) =
      .ok (if specTW (expectedKeysOf hdrs) (sl.map normKey) (lines.map (makeRow hdrs)) = 0
           then "-1"
           else formatAvg
             (specTWS (expectedKeysOf hdrs) (sl.map normKey) (lines.map (makeRow hdrs)))
             (specTW (expectedKeysOf hdrs) (sl.map normKey) (lines.map (makeRow hdrs)))) := by
  have hall : sl.all (fun s => keySetEq (s.map Prod.fst) (expectedKeysOf hdrs)) = true :=
    List.all_eq_true.mpr hk
  rw [task2_unfold hdrs lines sl hall,
    task2Loop_ok (expectedKeysOf hdrs) (sl.map normKey) (lines.map (makeRow hdrs)) hp 0 0]
  simp only [zero_add]
  by_cases h0 : specTW (expectedKeysOf hdrs) (sl.map normKey) (lines.map (makeRow hdrs)) = 0 <;>
    simp [h0]

/-- C1 witness: scenario C — rows with values 2 (even, weight 20) and 3
(odd, weight 10) average to 70 / 30 and print as `"2.3"`. -/
theorem task2_weightedAccumulation_witness :
    task2 [[("id", "1")]] [["id", "value"], ["1", "2"], ["1", "3"]] = .ok "2.3" :=
  (task2_weightedAccumulation ["id", "value"] [["1", "2"], ["1", "3"]] [[("id", "1")]]
    (by decide) (by decide) (by decide)).trans (by decide)

/-- C5: `task2` returns the sentinel `"-1"` whenever the accumulated total
weight is zero: for the empty search list (no error raised), and for any
validated search list matching no row. -/
theorem task2_sentinel (hdrs : List String) (lines : List (List String)) (sl : List Row)
    (hv : ValidSource hdrs lines)
    (hk : ∀ s ∈ sl, keySetEq (s.map Prod.fst) (expectedKeysOf hdrs) = true)
    (hnm : ∀ r ∈ lines.map (makeRow hdrs),
      rowMatched (expectedKeysOf hdrs) (sl.map normKey) r = false) :
    task2 [] (hdrs :: lines) = .ok "-1" ∧ task2 sl (hdrs :: lines) = .ok "-1" := by
  constructor
  · rw [task2_unfold hdrs lines [] rfl, List.map_nil,
      task2Loop_skip (expectedKeysOf hdrs) [] (lines.map (makeRow hdrs))
        (fun _ _ => rfl) 0 0]
    rfl
  · have hall : sl.all (fun s => keySetEq (s.map Prod.fst) (expectedKeysOf hdrs)) = true :=
      List.all_eq_true.mpr hk
    rw [task2_unfold hdrs lines sl hall,
      task2Loop_skip (expectedKeysOf hdrs) (sl.map normKey) (lines.map (makeRow hdrs))
        hnm 0 0]
    rfl

/-- C5 witness: an empty search list, and a validated list matching no
row (even with a non-integer value present in an unmatched row). -/
theorem task2_sentinel_witness :
    task2 [] [["id", "value"], ["1", "2"]] = .ok "-1" ∧
    task2 [[("id", "9")]] [["id", "value"], ["1", "2"]] = .ok "-1" :=
  ⟨(task2_sentinel ["id", "value"] [["1", "2"]] [[("id", "9")]]
      (by decide) (by decide) (by decide)).1,
   (task2_sentinel ["id", "value"] [["1", "2"]] [[("id", "9")]]
      (by decide) (by decide) (by decide)).2⟩

/-- C6: a matched row whose `"value"` field does not parse as an integer
makes `task2` fail with the value-format error: no partial result is
returned. -/
theorem task2_valueFormat (hdrs : List String) (lines : List (List String)) (sl : List Row)
    (hv : ValidSource hdrs lines)
    (hk : ∀ s ∈ sl, keySetEq (s.map Prod.fst) (expectedKeysOf hdrs) = true)
    (hbad : ∃ r ∈ lines.map (makeRow hdrs),
      rowMatched (expectedKeysOf hdrs) (sl.map normKey) r = true ∧
      pyInt (rowGet r "value") = none) :
    task2 sl (hdrs :: lines) = .error .valueFormat := by
  have hall : sl.all (fun s => keySetEq (s.map Prod.fst) (expectedKeysOf hdrs)) = true :=
    List.all_eq_true.mpr hk
  rw [task2_unfold hdrs lines sl hall,
    task2Loop_valueError (expectedKeysOf hdrs) (sl.map normKey) (lines.map (makeRow hdrs))
      hbad 0 0]

/-- C6 witness: a matched row with value `"junk"`. -/
theorem task2_valueFormat_witness :
    task2 [[("id", "1")]] [["id", "value"], ["1", "junk"]] = .error .valueFormat :=
  task2_valueFormat ["id", "value"] [["1", "junk"]] [[("id", "1")]]
    (by decide) (by decide) (by decide)

/-- C10: integer parsing is attempted only on matched rows: when every
matched row's value parses, the scan runs to completion and the call
succeeds, regardless of what unmatched rows contain in their `"value"`
field. -/
theorem task2_ignoresUnmatchedValues (hdrs : List String) (lines : List (List String))
    (sl : List Row)
    (hv : ValidSource hdrs lines)
    (hk : ∀ s ∈ sl, keySetEq (s.map Prod.fst) (expectedKeysOf hdrs) = true)
    (hp : ∀ r ∈ lines.map (makeRow hdrs),
      rowMatched (expectedKeysOf hdrs) (sl.map normKey) r = true →
      (pyInt (rowGet r "value")).isSome) :
    ∃ out : String, task2 sl (hdrs :: lines) = .ok out := by
  have hall : sl.all (fun s => keySetEq (s.map Prod.fst) (expectedKeysOf hdrs)) = true :=
    List.all_eq_true.mpr hk
  rw [task2_unfold hdrs lines sl hall,
    task2Loop_ok (expectedKeysOf hdrs) (sl.map normKey) (lines.map (makeRow hdrs)) hp 0 0]
  by_cases h0 : specTW (expectedKeysOf hdrs) (sl.map normKey) (lines.map (makeRow hdrs)) = 0
  · exact ⟨"-1", by simp [h0]⟩
  · exact ⟨formatAvg
      (specTWS (expectedKeysOf hdrs) (sl.map normKey) (lines.map (makeRow hdrs)))
      (specTW (expectedKeysOf hdrs) (sl.map normKey) (lines.map (makeRow hdrs))), by simp [h0]⟩

/-- C10 witness: the unmatched second row carries the unparseable value
`"junk"`, yet the scan completes and the call succeeds. -/
theorem task2_ignoresUnmatchedValues_witness :
    ∃ out : String,
      task2 [[("id", "1")]] [["id", "value"], ["1", "2"], ["2", "junk"]] = .ok out :=
  task2_ignoresUnmatchedValues ["id", "value"] [["1", "2"], ["2", "junk"]] [[("id", "1")]]
    (by decide) (by decide) (by decide)

/-! ## The canonical key order: totality, transitivity, antisymmetry -/

theorem string_eq_of_data_eq {a b : String} (h : a.data = b.data) : a = b := by
  cases a
  cases b
  exact congrArg String.mk h

theorem charListLt_total (as : List Char) :
    ∀ bs, charListLt as bs = true ∨ charListLt bs as = true ∨ as = bs := by
  induction as with
  | nil =>
    intro bs
    cases bs with
    | nil => right; right; rfl
    | cons b bs => left; rfl
  | cons a as ih =>
    intro bs
    cases bs with
    | nil => right; left; rfl
    | cons b bs =>
      rcases lt_trichotomy a b with h | h | h
      · left; simp [charListLt, h]
      · subst h
        rcases ih bs with h' | h' | h'
        · left; simp [charListLt, h']
        · right; left; simp [charListLt, h']
        · right; right; rw [h']
      · right; left; simp [charListLt, h]

theorem charListLt_asymm (as : List Char) :
    ∀ bs, charListLt as bs = true → charListLt bs as = true → False := by
  induction as with
  | nil =>
    intro bs h1 h2
    cases bs with
    | nil => simp [charListLt] at h1
    | cons b bs => simp [charListLt] at h2
  | cons a as ih =>
    intro bs h1 h2
    cases bs with
    | nil => simp [charListLt] at h1
    | cons b bs =>
      simp only [charListLt, Bool.or_eq_true, decide_eq_true_eq, Bool.and_eq_true,
        beq_iff_eq] at h1 h2
      rcases h1 with h1 | ⟨h1e, h1r⟩
      · rcases h2 with h2 | ⟨h2e, _⟩
        · exact absurd (h1.trans h2) (lt_irrefl a)
        · exact absurd h1 (h2e ▸ lt_irrefl a)
      · rcases h2 with h2 | ⟨_, h2r⟩
        · exact absurd h2 (h1e ▸ lt_irrefl a)
        · exact ih bs h1r h2r

theorem charListLt_trans (as : List Char) :
    ∀ bs cs, charListLt as bs = true → charListLt bs cs = true →
    charListLt as cs = true := by
  induction as with
  | nil =>
    intro bs cs h1 h2
    cases bs with
    | nil => simp [charListLt] at h1
    | cons b bs =>
      cases cs with
      | nil => simp [charListLt] at h2
      | cons c cs => rfl
  | cons a as ih =>
    intro bs cs h1 h2
    cases bs with
    | nil => simp [charListLt] at h1
    | cons b bs =>
      cases cs with
      | nil => simp [charListLt] at h2
      | cons c cs =>
        simp only [charListLt, Bool.or_eq_true, decide_eq_true_eq, Bool.and_eq_true,
          beq_iff_eq] at h1 h2 ⊢
        rcases h1 with h1 | ⟨h1e, h1r⟩
        · rcases h2 with h2 | ⟨h2e, _⟩
          · exact Or.inl (h1.trans h2)
          · exact Or.inl (h2e ▸ h1)
        · rcases h2 with h2 | ⟨h2e, h2r⟩
          · exact Or.inl (h1e ▸ h2)
          · exact Or.inr ⟨h1e.trans h2e, ih bs cs h1r h2r⟩

instance : IsTotal (String × String) pairLE where
  total a b := by
    rcases charListLt_total a.1.data b.1.data with h | h | h
    · exact Or.inl (Or.inl h)
    · exact Or.inr (Or.inl h)
    · have he : a.1 = b.1 := string_eq_of_data_eq h
      rcases charListLt_total a.2.data b.2.data with h2 | h2 | h2
      · exact Or.inl (Or.inr ⟨he, Or.inl h2⟩)
      · exact Or.inr (Or.inr ⟨he.symm, Or.inl h2⟩)
      · exact Or.inl (Or.inr ⟨he, Or.inr (string_eq_of_data_eq h2)⟩)

instance : IsTrans (String × String) pairLE where
  trans a b c hab hbc := by
    rcases hab with h1 | ⟨h1e, h1r⟩
    · rcases hbc with h2 | ⟨h2e, _⟩
      · exact Or.inl (charListLt_trans _ _ _ h1 h2)
      · exact Or.inl (h2e ▸ h1)
    · rcases hbc with h2 | ⟨h2e, h2r⟩
      · exact Or.inl (h1e ▸ h2)
      · refine Or.inr ⟨h1e.trans h2e, ?_⟩
        rcases h1r with h1r | h1r
        · rcases h2r with h2r | h2r
          · exact Or.inl (charListLt_trans _ _ _ h1r h2r)
          · exact Or.inl (h2r ▸ h1r)
        · rcases h2r with h2r | h2r
          · exact Or.inl (h1r ▸ h2r)
          · exact Or.inr (h1r.trans h2r)

instance : IsAntisymm (String × String) pairLE where
  antisymm a b hab hba := by
    obtain ⟨a1, a2⟩ := a
    obtain ⟨b1, b2⟩ := b
    simp only [pairLE] at hab hba
    rcases hab with h1 | ⟨h1e, h1r⟩
    · rcases hba with h2 | ⟨h2e, h2r⟩
      · exact (charListLt_asymm _ _ h1 h2).elim
      · rw [h2e] at h1
        exact (charListLt_asymm _ _ h1 h1).elim
    · rcases hba with h2 | ⟨h2e, h2r⟩
      · rw [h1e] at h2
        exact (charListLt_asymm _ _ h2 h2).elim
      · rcases h1r with h1r | h1r
        · rcases h2r with h2r | h2r
          · exact (charListLt_asymm _ _ h1r h2r).elim
          · rw [h2r] at h1r
            exact (charListLt_asymm _ _ h1r h1r).elim
        · rw [h1e, h1r]

theorem sortPairs_eq_of_perm {l1 l2 : Row} (h : l1.Perm l2) :
    sortPairs l1 = sortPairs l2 :=
  List.eq_of_perm_of_sorted
    ((List.perm_insertionSort pairLE l1).trans
      (h.trans (List.perm_insertionSort pairLE l2).symm))
    (List.sorted_insertionSort pairLE l1) (List.sorted_insertionSort pairLE l2)

theorem normKey_eq_of_perm {l1 l2 : Row} (h : l1.Perm l2) :
    normKey l1 = normKey l2 :=
  sortPairs_eq_of_perm h

theorem perm_of_normKey_eq {l1 l2 : Row} (h : normKey l1 = normKey l2) :
    l1.Perm l2 := by
  have p1 := List.perm_insertionSort pairLE l1
  have p2 := List.perm_insertionSort pairLE l2
  have h' : List.insertionSort pairLE l1 = List.insertionSort pairLE l2 := h
  rw [h'] at p1
  exact p1.symm.trans p2

/-! ## Congruence of the queries in their search arguments -/

theorem task2Loop_congr (ek : List String) (ss ss' : List Row)
    (h : ∀ x, ss.contains x = ss'.contains x) :
    ∀ (rows : List Row) (tws tw : Int),
    task2Loop ek ss rows tws tw = task2Loop ek ss' rows tws tw := by
  intro rows
  induction rows with
  | nil => intro _ _; rfl
  | cons r rest ih =>
    intro tws tw
    by_cases hm : ss.contains (rowKey ek r) = true
    · have hm' : ss'.contains (rowKey ek r) = true := (h _).symm.trans hm
      have hmem : rowKey ek r ∈ ss := (contains_true_iff ss _).mp hm
      have hmem' : rowKey ek r ∈ ss' := (contains_true_iff ss' _).mp hm'
      cases hv : pyInt (rowGet r "value") with
      | none => simp [task2Loop, hmem, hmem', hv]
      | some v => simp [task2Loop, hmem, hmem', hv, ih]
    · have hmf : ss.contains (rowKey ek r) = false := Bool.not_eq_true _ |>.mp hm
      have hmf' : ss'.contains (rowKey ek r) = false := (h _).symm.trans hmf
      have hmem : rowKey ek r ∉ ss := fun hc => by
        rw [(contains_true_iff ss _).mpr hc] at hmf
        exact absurd hmf (by simp)
      have hmem' : rowKey ek r ∉ ss' := fun hc => by
        rw [(contains_true_iff ss' _).mpr hc] at hmf'
        exact absurd hmf' (by simp)
      simp [task2Loop, hmem, hmem', ih]

theorem task2_congr (hdrs : List String) (lines : List (List String)) (sl sl' : List Row)
    (hall : sl.all (fun s => keySetEq (s.map Prod.fst) (expectedKeysOf hdrs)) =
            sl'.all (fun s => keySetEq (s.map Prod.fst) (expectedKeysOf hdrs)))
    (hss : ∀ x, (sl.map normKey).contains x = (sl'.map normKey).contains x) :
    task2 sl (hdrs :: lines) = task2 sl' (hdrs :: lines) := by
  by_cases hv : sl'.all (fun s => keySetEq (s.map Prod.fst) (expectedKeysOf hdrs)) = true
  · rw [task2_unfold hdrs lines sl (hall.trans hv), task2_unfold hdrs lines sl' hv,
      task2Loop_congr (expectedKeysOf hdrs) (sl.map normKey) (sl'.map normKey) hss
        (lines.map (makeRow hdrs)) 0 0]
  · have hv' : sl'.all (fun s => keySetEq (s.map Prod.fst) (expectedKeysOf hdrs)) = false :=
      Bool.not_eq_true _ |>.mp hv
    simp [task2, parse_data_iter, hall.trans hv', hv']

theorem task1_congr (search search' : Row) (src : List (List String))
    (hk : ∀ k, k ∈ search.map Prod.fst ↔ k ∈ search'.map Prod.fst)
    (hn : normKey search = normKey search') :
    task1 search src = task1 search' src := by
  cases src with
  | nil => rfl
  | cons hdrs lines =>
    have hkeq := @keySetEq_congr_left (search.map Prod.fst) (search'.map Prod.fst)
      (expectedKeysOf hdrs) hk
    by_cases hv : keySetEq (search'.map Prod.fst) (expectedKeysOf hdrs) = true
    · rw [task1_ok_of hdrs lines search (hkeq.trans hv),
        task1_ok_of hdrs lines search' hv, hn]
    · have hvf : keySetEq (search'.map Prod.fst) (expectedKeysOf hdrs) = false :=
        Bool.not_eq_true _ |>.mp hv
      simp [task1, parse_data_iter, hkeq.trans hvf, hvf]

/-! ## Claim theorems: canonicalization -/

/-- C7: appending to the search list a key whose normalized form already
occurs among the list's normalized keys leaves the result of `task2`
unchanged — duplicate criteria collapse to one set entry, so rows are not
double-counted. -/
theorem task2_dedupSearchKeys (sl : List Row) (dup : Row) (src : List (List String))
    (h : normKey dup ∈ sl.map normKey) :
    task2 (sl ++ [dup]) src = task2 sl src := by
  cases src with
  | nil => rfl
  | cons hdrs lines =>
    obtain ⟨s, hs, hseq⟩ := List.mem_map.mp h
    have hperm : s.Perm dup := perm_of_normKey_eq hseq
    have hkmem : ∀ k, k ∈ dup.map Prod.fst ↔ k ∈ s.map Prod.fst :=
      fun k => (hperm.map Prod.fst).mem_iff.symm
    have hkeq : keySetEq (dup.map Prod.fst) (expectedKeysOf hdrs) =
        keySetEq (s.map Prod.fst) (expectedKeysOf hdrs) :=
      keySetEq_congr_left hkmem
    have hall : (sl ++ [dup]).all (fun t => keySetEq (t.map Prod.fst) (expectedKeysOf hdrs)) =
        sl.all (fun t => keySetEq (t.map Prod.fst) (expectedKeysOf hdrs)) := by
      rw [List.all_append]
      by_cases hv : sl.all (fun t => keySetEq (t.map Prod.fst) (expectedKeysOf hdrs)) = true
      · have hsv := List.all_eq_true.mp hv s hs
        simp [hv, hkeq, hsv]
      · have hvf : sl.all (fun t => keySetEq (t.map Prod.fst) (expectedKeysOf hdrs)) = false :=
          Bool.not_eq_true _ |>.mp hv
        simp [hvf]
    have hss : ∀ x, ((sl ++ [dup]).map normKey).contains x = (sl.map normKey).contains x := by
      apply contains_congr
      intro y
      rw [List.map_append]
      constructor
      · intro hy
        rcases List.mem_append.mp hy with hy | hy
        · exact hy
        · simp only [List.map_cons, List.map_nil, List.mem_singleton] at hy
          rw [hy]
          exact h
      · intro hy
        exact List.mem_append.mpr (Or.inl hy)
    exact task2_congr hdrs lines (sl ++ [dup]) sl hall hss

/-- C7 witness: a duplicated criterion gives the same result as the
deduplicated list (each matching row still counted once). -/
theorem task2_dedupSearchKeys_witness :
    normKey [("id", "1")] ∈ [[("id", "1")]].map normKey ∧
    task2 [[("id", "1")], [("id", "1")]] [["id", "value"], ["1", "2"], ["1", "3"]] =
      task2 [[("id", "1")]] [["id", "value"], ["1", "2"], ["1", "3"]] :=
  ⟨by decide, task2_dedupSearchKeys [[("id", "1")]] [("id", "1")]
    [["id", "value"], ["1", "2"], ["1", "3"]] (by decide)⟩

theorem searchList_map_normKey_eq {sl sl' : List Row}
    (h2 : List.Forall₂ List.Perm sl sl') :
    sl.map normKey = sl'.map normKey := by
  induction h2 with
  | nil => rfl
  | cons hp ht ih => simp [normKey_eq_of_perm hp, ih]

theorem searchList_all_keySetEq_eq (e : List String) {sl sl' : List Row}
    (h2 : List.Forall₂ List.Perm sl sl') :
    sl.all (fun t => keySetEq (t.map Prod.fst) e) =
      sl'.all (fun t => keySetEq (t.map Prod.fst) e) := by
  induction h2 with
  | nil => rfl
  | cons hp ht ih =>
    simp only [List.all_cons, ih,
      @keySetEq_congr_left _ _ e (fun k => (hp.map Prod.fst).mem_iff)]

/-- C8: key comparison is insertion-order independent — replacing the
search mapping of `task1`, and each mapping in the search list of `task2`,
by a reordering of the same `(column, value)` pairs leaves the result on
every data source unchanged, because keys are normalized by sorting before
any comparison. -/
theorem queryKeyOrderIndependent (search search' : Row) (sl sl' : List Row)
    (src : List (List String))
    (h1 : search.Perm search')
    (h2 : List.Forall₂ List.Perm sl sl') :
    task1 search src = task1 search' src ∧ task2 sl src = task2 sl' src := by
  constructor
  · exact task1_congr search search' src
      (fun k => (h1.map Prod.fst).mem_iff) (normKey_eq_of_perm h1)
  · cases src with
    | nil => rfl
    | cons hdrs lines =>
      have hmap : sl.map normKey = sl'.map normKey :=
        searchList_map_normKey_eq h2
      have hall : sl.all (fun t => keySetEq (t.map Prod.fst) (expectedKeysOf hdrs)) =
          sl'.all (fun t => keySetEq (t.map Prod.fst) (expectedKeysOf hdrs)) :=
        searchList_all_keySetEq_eq (expectedKeysOf hdrs) h2
      exact task2_congr hdrs lines sl sl' hall (fun x => by rw [hmap])

/-- C8 witness: the same two-column key in both insertion orders gives
identical results for both queries. -/
theorem queryKeyOrderIndependent_witness :
    [("a", "1"), ("b", "2")].Perm [("b", "2"), ("a", "1")] ∧
    task1 [("a", "1"), ("b", "2")] [["a", "b", "value"], ["1", "2", "7"]] =
      task1 [("b", "2"), ("a", "1")] [["a", "b", "value"], ["1", "2", "7"]] ∧
    task2 [[("a", "1"), ("b", "2")]] [["a", "b", "value"], ["1", "2", "7"]] =
      task2 [[("b", "2"), ("a", "1")]] [["a", "b", "value"], ["1", "2", "7"]] := by
  have hp : [("a", "1"), ("b", "2")].Perm [("b", "2"), ("a", "1")] :=
    List.Perm.swap _ _ _
  have h := queryKeyOrderIndependent [("a", "1"), ("b", "2")] [("b", "2"), ("a", "1")]
    [[("a", "1"), ("b", "2")]] [[("b", "2"), ("a", "1")]]
    [["a", "b", "value"], ["1", "2", "7"]] hp (List.Forall₂.cons hp List.Forall₂.nil)
  exact ⟨hp, h.1, h.2⟩
